import Mathlib

/-!
Verification of the MINIX v3 filesystem reader (`fs_util.c`, `minls.c`)
against its natural-language specification.

The C code is shallowly embedded: machine integers become `Nat` (with an
explicit `% 2 ^ 32` where 32-bit overflow matters), on-disk bytes become
total functions `Nat → Nat` or `List Nat`, and every fallible I/O primitive
becomes an oracle returning `Option`.
-/

set_option maxRecDepth 10000

namespace MinixFs

/-- Constant `DIRECT_ZONES` from `fs_util.h`. -/
def DIRECT_ZONES : Nat := 7

/-- Constant `DIR_ENTRY_SIZE` from `fs_util.h` (a directory entry is 64 bytes). -/
def DIR_ENTRY_SIZE : Nat := 64

/-- Constant `INODE_SIZE` from `fs_util.h` (an inode record is 64 bytes). -/
def INODE_SIZE : Nat := 64

/-- Constant `SECTOR_SIZE` from `fs_util.h`. -/
def SECTOR_SIZE : Nat := 512

/-- Constant `PARTITION_TABLE_OFFSET` (0x1BE = 446) from `fs_util.h`. -/
def PARTITION_TABLE_OFFSET : Nat := 446

/-- The filesystem geometry fields of the global state in `fs_util.c`
(`curr_sb.log_zone_size`, `curr_sb.blksize`). -/
structure FsGeom where
  log_zone_size : Nat
  blksize : Nat
  deriving DecidableEq

/-- Derived `blks_per_zone_val = 1 << curr_sb.log_zone_size` (`fs_util.c:221`). -/
def blksPerZone (g : FsGeom) : Nat := 2 ^ g.log_zone_size

/-- Derived `zone_size = curr_sb.blksize * blks_per_zone` (`fs_util.c:168`). -/
def zoneSizeBytes (g : FsGeom) : Nat := g.blksize * blksPerZone g

/-- Derived `ptrs_per_blk = curr_sb.blksize / sizeof(uint32_t)` (`fs_util.c:222`). -/
def ptrsPerBlk (g : FsGeom) : Nat := g.blksize / 4

/-- The fields of `minix_inode_t` (`fs_util.h`) that the embedded operations
consult.  `zone` is the 7-entry direct-zone array; all fields are the
unsigned on-disk values. -/
structure MinixInode where
  mode : Nat
  size : Nat
  zone : List Nat
  indirect : Nat
  two_indirect : Nat
  deriving DecidableEq

/--
The `zone_num` computation of `get_file_blk` (`fs_util.c:227-293`): the
branch on the range of `logical_zone` over the direct table, the
single-indirect table and the double-indirect tables.

`readTbl` is the oracle for `read_fs_bytes` reading an indirect table:
`readTbl off` is the `blksize`-byte block at byte offset `off`, already
decoded as its array of `ptrs_per_blk` little-endian `uint32` zone
pointers, or `none` when the read fails; on a failed read the source
leaves `zone_num` at 0. -/
def get_file_zone_num (g : FsGeom) (readTbl : Nat → Option (List Nat))
    (inode : MinixInode) (logical_zone : Nat) : Nat :=
  let P := ptrsPerBlk g
  if logical_zone < DIRECT_ZONES then
    inode.zone.getD logical_zone 0
  else if logical_zone < DIRECT_ZONES + P then
    -- single indirect: slot logical_zone - DIRECT_ZONES
    if inode.indirect ≠ 0 then
      match readTbl (inode.indirect * zoneSizeBytes g) with
      | some tbl => tbl.getD (logical_zone - DIRECT_ZONES) 0
      | none => 0
    else 0
  else
    -- double indirect
    let offset_in_double := logical_zone - (DIRECT_ZONES + P)
    if inode.two_indirect ≠ 0 then
      match readTbl (inode.two_indirect * zoneSizeBytes g) with
      | some first_level =>
        let first_level_i := offset_in_double / P
        if first_level_i < P then
          let second_level_zone := first_level.getD first_level_i 0
          if second_level_zone ≠ 0 then
            match readTbl (second_level_zone * zoneSizeBytes g) with
            | some second_level =>
              second_level.getD (offset_in_double % P) 0
            | none => 0
          else 0
        else 0
      | none => 0
    else 0

/--
Function `get_file_blk` (`fs_util.c:219-303`).  Converts a file-relative logical
block number to an absolute block number on disk; the return value 0
encodes a hole (or any failure), exactly as in the source.  The final
multiply-add is `uint32` arithmetic, hence the `% 2 ^ 32`. -/
def get_file_blk (g : FsGeom) (readTbl : Nat → Option (List Nat))
    (inode : MinixInode) (logical_blk : Nat) : Nat :=
  let bpz := blksPerZone g
  let logical_zone := logical_blk / bpz
  let blk_in_zone := logical_blk % bpz
  let zone_num := get_file_zone_num g readTbl inode logical_zone
  if zone_num = 0 then 0
  else (zone_num * bpz + blk_in_zone) % 2 ^ 32

/--
The `zone_num` resolution exactly as the specification (§4.5) words it,
for the comparison demanded by claim C1: direct slot for `z < 7`,
single-indirect slot `z - 7` for `7 ≤ z < 7 + P`, double-indirect slots
`(z-7-P)/P` then `(z-7-P)%P` for `7 + P ≤ z < 7 + P + P²`, Hole (0)
beyond the addressable range, a zero zone number anywhere
short-circuiting to Hole.  `tbl off` is the decoded zone-pointer table
stored at byte offset `off` (the spec's reads, assumed to succeed). -/
def map_zone_spec (g : FsGeom) (tbl : Nat → List Nat)
    (inode : MinixInode) (z : Nat) : Nat :=
  let P := ptrsPerBlk g
  if z < 7 then
    inode.zone.getD z 0
  else if z < 7 + P then
    if inode.indirect = 0 then 0
    else (tbl (inode.indirect * zoneSizeBytes g)).getD (z - 7) 0
  else if z < 7 + P + P * P then
    if inode.two_indirect = 0 then 0
    else
      let s := (tbl (inode.two_indirect * zoneSizeBytes g)).getD ((z - 7 - P) / P) 0
      if s = 0 then 0
      else (tbl (s * zoneSizeBytes g)).getD ((z - 7 - P) % P) 0
  else 0

/--
The block mapper exactly as the specification (§4.5) words it:
decompose `L` as `logical_zone = L / blocks_per_zone` and
`block_in_zone = L % blocks_per_zone`, resolve `zone_num` per
`map_zone_spec`, return `none` for a Hole and otherwise
`some (zone_num * blocks_per_zone + block_in_zone)`. -/
def map_block_spec (g : FsGeom) (tbl : Nat → List Nat)
    (inode : MinixInode) (L : Nat) : Option Nat :=
  let bpz := blksPerZone g
  let zone_num := map_zone_spec g tbl inode (L / bpz)
  if zone_num = 0 then none else some (zone_num * bpz + L % bpz)

/-- Helper: with all reads succeeding, the source's `zone_num` resolution
agrees with the specification's. -/
theorem get_file_zone_num_eq_spec (g : FsGeom) (tbl : Nat → List Nat)
    (inode : MinixInode) (z : Nat) (hP : 0 < ptrsPerBlk g) :
    get_file_zone_num g (fun off => some (tbl off)) inode z =
      map_zone_spec g tbl inode z := by
  unfold get_file_zone_num map_zone_spec
  simp only [DIRECT_ZONES]
  by_cases h1 : z < 7
  · rw [if_pos h1, if_pos h1]
  · rw [if_neg h1, if_neg h1]
    by_cases h2 : z < 7 + ptrsPerBlk g
    · rw [if_pos h2, if_pos h2]
      by_cases hi : inode.indirect = 0
      · rw [if_neg (by simpa using hi), if_pos hi]
      · rw [if_pos hi, if_neg hi]
    · rw [if_neg h2, if_neg h2]
      by_cases hd : inode.two_indirect = 0
      · rw [if_neg (by simpa using hd)]
        by_cases h3 : z < 7 + ptrsPerBlk g + ptrsPerBlk g * ptrsPerBlk g
        · rw [if_pos h3, if_pos hd]
        · rw [if_neg h3]
      · rw [if_pos hd]
        have harith : z - 7 - ptrsPerBlk g = z - (7 + ptrsPerBlk g) := by omega
        by_cases h3 : z < 7 + ptrsPerBlk g + ptrsPerBlk g * ptrsPerBlk g
        · have hlt : (z - (7 + ptrsPerBlk g)) / ptrsPerBlk g < ptrsPerBlk g :=
            Nat.div_lt_of_lt_mul (by omega)
          rw [if_pos h3, if_neg hd, harith, if_pos hlt]
          by_cases hs : (tbl (inode.two_indirect * zoneSizeBytes g)).getD
              ((z - (7 + ptrsPerBlk g)) / ptrsPerBlk g) 0 = 0
          · rw [if_neg (by simpa using hs), if_pos hs]
          · rw [if_pos hs, if_neg hs]
        · have hge : ¬ (z - (7 + ptrsPerBlk g)) / ptrsPerBlk g < ptrsPerBlk g := by
            intro hcon
            have := (Nat.div_lt_iff_lt_mul hP).mp hcon
            omega
          rw [if_neg h3, if_neg hge]

end MinixFs

namespace MinixFs

/-- Claim C1, counterexample. The claim says that whenever the resolved
zone number is nonzero the mapper returns the disk block
`zone_num * blocks_per_zone + block_in_zone`.  The final multiply-add at
`fs_util.c:299` is `uint32` arithmetic and wraps: with `blksize = 16`,
`log_zone_size = 1` (`blocks_per_zone = 2`) and direct slot
`zone[0] = 2^31`, logical block 0 should map to disk block
`2^31 * 2 + 0 = 2^32`, but the product wraps to 0 and `get_file_blk`
returns 0 — the hole encoding — instead. -/
theorem C1_counterexample :
    map_block_spec ⟨1, 16⟩ (fun _ => [1, 1, 1, 1])
      ⟨0, 0, [2 ^ 31, 0, 0, 0, 0, 0, 0], 0, 0⟩ 0 = some (2 ^ 32) ∧
    get_file_blk ⟨1, 16⟩ (fun _ => some [1, 1, 1, 1])
      ⟨0, 0, [2 ^ 31, 0, 0, 0, 0, 0, 0], 0, 0⟩ 0 = 0 := by
  constructor <;> decide

/-- Claim C1, amended. For every inode and every logical block index `L`,
when every indirect-table read succeeds (the oracle is
`fun off => some (tbl off)`), `get_file_blk` computes exactly the block
mapper of the specification up to the final `uint32` reduction:
`logical_zone = L / blocks_per_zone`, `block_in_zone = L %
blocks_per_zone`, `zone_num` from the direct table for
`logical_zone < 7`, single-indirect slot `logical_zone - 7` for
`7 ≤ logical_zone < 7 + P`, double-indirect slots `(logical_zone-7-P)/P`
and `(logical_zone-7-P)%P` for `7 + P ≤ logical_zone < 7 + P + P²`, Hole
(encoded 0) beyond that range and on any zero dereferenced zone number,
and otherwise the disk block
`(zone_num * blocks_per_zone + block_in_zone) % 2^32` — the multiply-add
is 32-bit, and a product that wraps to 0 is returned as the hole
encoding. -/
theorem C1_get_file_blk_matches_spec_mod32 (g : FsGeom) (tbl : Nat → List Nat)
    (inode : MinixInode) (L : Nat) (hP : 0 < ptrsPerBlk g) :
    get_file_blk g (fun off => some (tbl off)) inode L =
      (map_block_spec g tbl inode L).getD 0 % 2 ^ 32 := by
  simp only [get_file_blk, map_block_spec]
  rw [get_file_zone_num_eq_spec g tbl inode (L / blksPerZone g) hP]
  by_cases h0 : map_zone_spec g tbl inode (L / blksPerZone g) = 0
  · rw [if_pos h0, if_pos h0]
    rfl
  · rw [if_neg h0, if_neg h0]
    rfl

/-- Witness for the amended C1 at a concrete double-indirect input:
`blksize = 16` (so `P = 4`), `log_zone_size = 1` (two blocks per zone),
`L = 25` (`logical_zone = 12`, in the double-indirect range). -/
theorem C1_witness :
    get_file_blk ⟨1, 16⟩
      (fun off => some (if off = 320 then [40, 50, 0, 0] else
                        if off = 1600 then [60, 70, 80, 90] else [1, 2, 3, 4]))
      ⟨0, 0, [9, 9, 9, 9, 9, 9, 9], 0, 10⟩ 25 =
      (map_block_spec ⟨1, 16⟩
        (fun off => if off = 320 then [40, 50, 0, 0] else
                    if off = 1600 then [60, 70, 80, 90] else [1, 2, 3, 4])
        ⟨0, 0, [9, 9, 9, 9, 9, 9, 9], 0, 10⟩ 25).getD 0 % 2 ^ 32 :=
  C1_get_file_blk_matches_spec_mod32 ⟨1, 16⟩
    (fun off => if off = 320 then [40, 50, 0, 0] else
                if off = 1600 then [60, 70, 80, 90] else [1, 2, 3, 4])
    ⟨0, 0, [9, 9, 9, 9, 9, 9, 9], 0, 10⟩ 25 (by decide)

/-- Claim C2, counterexample. The claim says a failed indirect-table read is
reported as a hard error distinct from Hole.  On the code it is not: with
`blksize = 16`, `log_zone_size = 0`, an inode whose single-indirect zone
is 3 (nonzero) and an oracle on which every read fails, logical block 7
(single-indirect slot 0) yields 0 — exactly the value `get_file_blk`
returns for a genuine hole (an inode with `indirect = 0`).  A failed
indirect-table read is therefore reported as a hole. -/
theorem C2_counterexample :
    get_file_blk ⟨0, 16⟩ (fun _ => none) ⟨0, 0, [1, 1, 1, 1, 1, 1, 1], 3, 0⟩ 7 = 0 ∧
    get_file_blk ⟨0, 16⟩ (fun _ => some [8, 8, 8, 8]) ⟨0, 0, [1, 1, 1, 1, 1, 1, 1], 0, 0⟩ 7 = 0 := by
  constructor <;> decide

/-- Claim C2, amended. For every inode and logical block index in the
single- or double-indirect range whose indirect (respectively
double-indirect) zone number is nonzero, if the read of that indirect
table block fails, `get_file_blk` returns 0 — the same value that encodes
a hole.  The mapper has no error channel distinct from Hole: a failed
indirect-table read is reported as a hole. -/
theorem C2_failed_indirect_read_is_hole (g : FsGeom)
    (readTbl : Nat → Option (List Nat)) (inode : MinixInode) (L : Nat) :
    (7 ≤ L / blksPerZone g → L / blksPerZone g < 7 + ptrsPerBlk g →
      inode.indirect ≠ 0 →
      readTbl (inode.indirect * zoneSizeBytes g) = none →
      get_file_blk g readTbl inode L = 0) ∧
    (7 + ptrsPerBlk g ≤ L / blksPerZone g →
      inode.two_indirect ≠ 0 →
      readTbl (inode.two_indirect * zoneSizeBytes g) = none →
      get_file_blk g readTbl inode L = 0) := by
  constructor
  · intro h7 hP hi hfail
    have hz : get_file_zone_num g readTbl inode (L / blksPerZone g) = 0 := by
      simp only [get_file_zone_num, DIRECT_ZONES]
      rw [if_neg (by omega), if_pos hP, if_pos hi, hfail]
    simp only [get_file_blk]
    rw [hz]
    rfl
  · intro h7 hd hfail
    have hz : get_file_zone_num g readTbl inode (L / blksPerZone g) = 0 := by
      simp only [get_file_zone_num, DIRECT_ZONES]
      rw [if_neg (by omega), if_neg (by omega), if_pos hd, hfail]
    simp only [get_file_blk]
    rw [hz]
    rfl

/-- Witness for the amended C2 at a concrete input: single-indirect range,
`blksize = 16`, indirect zone 3, all reads failing. -/
theorem C2_witness :
    get_file_blk ⟨0, 16⟩ (fun _ => none) ⟨0, 0, [1, 1, 1, 1, 1, 1, 1], 3, 0⟩ 8 = 0 :=
  (C2_failed_indirect_read_is_hole ⟨0, 16⟩ (fun _ => none)
    ⟨0, 0, [1, 1, 1, 1, 1, 1, 1], 3, 0⟩ 8).1 (by decide) (by decide) (by decide) rfl

end MinixFs

namespace MinixFs

/-- Function `read_mbr_and_check_magic` fills a 512-byte buffer from the image at
byte offset `table_addr - PARTITION_TABLE_OFFSET` (`fs_util.c:15-30`).
The image is the total byte function `disk`. -/
def readSector (disk : Nat → Nat) (off : Nat) : List Nat :=
  (List.range SECTOR_SIZE).map (fun i => disk (off + i))

/--
Function `get_partition_start` (`fs_util.c:46-76`): read the 512-byte sector at
`table_addr - PARTITION_TABLE_OFFSET`, require the `0x55 0xAA` signature
at buffer offsets 510 and 511, require `0 ≤ part_num < 4`, require the
entry's type byte (buffer offset `0x1BE + 16*part_num + 4`) to be `0x81`,
and return the entry's little-endian 32-bit `lFirst` field (buffer offset
`0x1BE + 16*part_num + 8`).  Every failure returns 0. -/
def get_partition_start (disk : Nat → Nat) (part_num : Int)
    (table_addr : Nat) : Nat :=
  let mbr := readSector disk (table_addr - PARTITION_TABLE_OFFSET)
  if ¬ (mbr.getD 510 0 = 0x55 ∧ mbr.getD 511 0 = 0xAA) then 0
  else if part_num < 0 ∨ 4 ≤ part_num then 0
  else
    let e := PARTITION_TABLE_OFFSET + 16 * part_num.toNat
    if mbr.getD (e + 4) 0 ≠ 0x81 then 0
    else
      mbr.getD (e + 8) 0 + 256 * mbr.getD (e + 9) 0 +
      65536 * mbr.getD (e + 10) 0 + 16777216 * mbr.getD (e + 11) 0

/--
The partition-location phase of `init_filesystem` (`fs_util.c:120-150`):
`p_num = -1` leaves the filesystem base offset at 0; otherwise the
primary partition's start sector is looked up (failure signalled by 0)
and the base becomes `sector * SECTOR_SIZE`; when additionally
`s_num ≠ -1`, the sub-partition table in the sector at the primary's
base is consulted the same way and the base becomes the sub-entry's
`lFirst * SECTOR_SIZE`.  `none` models `init_filesystem` returning -1. -/
def locate_fs_offset (disk : Nat → Nat) (p_num s_num : Int) : Option Nat :=
  if p_num = -1 then some 0
  else
    let ps := get_partition_start disk p_num PARTITION_TABLE_OFFSET
    if ps = 0 then none
    else
      let base := ps * SECTOR_SIZE
      if s_num = -1 then some base
      else
        let ss := get_partition_start disk s_num (base + PARTITION_TABLE_OFFSET)
        if ss = 0 then none
        else some (ss * SECTOR_SIZE)

/-- The type byte of partition entry `p` of the table in the sector at
byte offset `base` of the image (spec §4.2 / §6 layout). -/
def partType (disk : Nat → Nat) (base p : Nat) : Nat :=
  disk (base + (446 + 16 * p + 4))

/-- The little-endian 32-bit `lFirst` field of partition entry `p` of the
table in the sector at byte offset `base` of the image (spec §4.2 / §6
layout). -/
def partLFirst (disk : Nat → Nat) (base p : Nat) : Nat :=
  disk (base + (446 + 16 * p + 8)) + 256 * disk (base + (446 + 16 * p + 9)) +
  65536 * disk (base + (446 + 16 * p + 10)) +
  16777216 * disk (base + (446 + 16 * p + 11))

/--
The partition locator as the amended claim C3 words it (spec §4.2 plus
the `lFirst ≠ 0` proviso): absent primary gives base 0; bytes 510/511 of
the sector at offset 0 must be `0x55 0xAA`, the primary must be in
{0,1,2,3}, its type byte must be `0x81`, and — because lookup signals
failure by sector 0 — its `lFirst` must be nonzero; then the base is
`lFirst × 512`.  A requested sub-partition repeats the same validations
on the sector at the primary's base. -/
def locate_fs_offset_spec (disk : Nat → Nat) (primary sub : Int) : Option Nat :=
  if primary = -1 then some 0
  else if ¬ (disk (0 + 510) = 0x55 ∧ disk (0 + 511) = 0xAA) then none
  else if primary < 0 ∨ 4 ≤ primary then none
  else if partType disk 0 primary.toNat ≠ 0x81 then none
  else if partLFirst disk 0 primary.toNat = 0 then none
  else
    let base := partLFirst disk 0 primary.toNat * 512
    if sub = -1 then some base
    else if ¬ (disk (base + 510) = 0x55 ∧ disk (base + 511) = 0xAA) then none
    else if sub < 0 ∨ 4 ≤ sub then none
    else if partType disk base sub.toNat ≠ 0x81 then none
    else if partLFirst disk base sub.toNat = 0 then none
    else some (partLFirst disk base sub.toNat * 512)

/-- Helper: indexing the copied sector buffer is reading the image. -/
theorem readSector_getD (disk : Nat → Nat) (off i : Nat) (h : i < 512) :
    (readSector disk off).getD i 0 = disk (off + i) := by
  simp only [readSector, SECTOR_SIZE]
  rw [List.getD_eq_getElem?_getD, List.getElem?_map, List.getElem?_range h]
  rfl

/-- Helper: `get_partition_start` in terms of direct image reads at the
sector base `table_addr - 446`. -/
theorem get_partition_start_eq (disk : Nat → Nat) (part_num : Int)
    (table_addr : Nat) :
    get_partition_start disk part_num table_addr =
      (if ¬ (disk (table_addr - 446 + 510) = 0x55 ∧
             disk (table_addr - 446 + 511) = 0xAA) then 0
       else if part_num < 0 ∨ 4 ≤ part_num then 0
       else if partType disk (table_addr - 446) part_num.toNat ≠ 0x81 then 0
       else partLFirst disk (table_addr - 446) part_num.toNat) := by
  have hb : ∀ k : Nat, k < 512 →
      (readSector disk (table_addr - 446)).getD k 0 = disk (table_addr - 446 + k) :=
    fun k hk => readSector_getD disk _ k hk
  simp only [get_partition_start, PARTITION_TABLE_OFFSET, partType, partLFirst]
  rw [hb 510 (by omega), hb 511 (by omega)]
  by_cases hsig : disk (table_addr - 446 + 510) = 0x55 ∧
      disk (table_addr - 446 + 511) = 0xAA
  · rw [if_neg (not_not_intro hsig), if_neg (not_not_intro hsig)]
    by_cases hrange : part_num < 0 ∨ 4 ≤ part_num
    · rw [if_pos hrange, if_pos hrange]
    · rw [if_neg hrange, if_neg hrange]
      have hle : part_num.toNat ≤ 3 := by omega
      rw [hb (446 + 16 * part_num.toNat + 4) (by omega),
          hb (446 + 16 * part_num.toNat + 8) (by omega),
          hb (446 + 16 * part_num.toNat + 9) (by omega),
          hb (446 + 16 * part_num.toNat + 10) (by omega),
          hb (446 + 16 * part_num.toNat + 11) (by omega)]
  · rw [if_pos hsig, if_pos hsig]

/-- A disk whose MBR signature is valid and whose partition entry 0 has
MINIX type `0x81` but `lFirst = 0` (all four `lFirst` bytes zero). -/
def lfirstZeroDisk : Nat → Nat := fun i =>
  if i = 450 then 0x81 else if i = 510 then 0x55 else if i = 511 then 0xAA else 0

/-- Claim C3, counterexample. On `lfirstZeroDisk`, partition 0 passes every
validation the claim lists (MBR signature `0x55 0xAA`, partition number in
{0,1,2,3}, type byte `0x81`), yet initialization does not set the
filesystem base offset to `lFirst × 512 = 0`: it fails, because
`get_partition_start` signals failure by returning 0 and an `lFirst` of 0
is indistinguishable from that signal. -/
theorem C3_counterexample :
    (lfirstZeroDisk (0 + 510) = 0x55 ∧ lfirstZeroDisk (0 + 511) = 0xAA) ∧
    partType lfirstZeroDisk 0 0 = 0x81 ∧
    partLFirst lfirstZeroDisk 0 0 = 0 ∧
    locate_fs_offset lfirstZeroDisk 0 (-1) ≠
      some (partLFirst lfirstZeroDisk 0 0 * 512) := by
  refine ⟨by decide, by decide, by decide, ?_⟩
  decide

/-- Claim C3, amended. For every image and requested primary partition
number `p`, partition location fails when the 512-byte sector's bytes 510
and 511 are not `0x55` and `0xAA`, fails when `p` is outside {0,1,2,3},
fails when entry `p`'s type byte is not `0x81`, fails when the entry's
`lFirst` field is 0 (partition lookup signals every failure by returning
sector 0), and otherwise initialization sets the filesystem base offset
to `lFirst × 512`; when a sub-partition is also requested the same
validations (including `lFirst ≠ 0`) are repeated on the sector at the
primary's base and the base becomes the sub-entry's `lFirst × 512`.
Stated as: the embedded locator equals the amended specification's
locator on every input. -/
theorem C3_partition_location (disk : Nat → Nat) (p s : Int) :
    locate_fs_offset disk p s = locate_fs_offset_spec disk p s := by
  simp only [locate_fs_offset, locate_fs_offset_spec, PARTITION_TABLE_OFFSET,
    SECTOR_SIZE]
  by_cases hp : p = -1
  · rw [if_pos hp, if_pos hp]
  · rw [if_neg hp, if_neg hp]
    have hq := get_partition_start_eq disk p 446
    simp only [Nat.sub_self] at hq
    by_cases hsig : disk (0 + 510) = 0x55 ∧ disk (0 + 511) = 0xAA
    · rw [if_neg (not_not_intro hsig)] at hq
      rw [if_neg (not_not_intro hsig)]
      by_cases hrange : p < 0 ∨ 4 ≤ p
      · rw [if_pos hrange] at hq
        rw [if_pos hrange, hq, if_pos rfl]
      · rw [if_neg hrange] at hq
        rw [if_neg hrange]
        by_cases htype : partType disk 0 p.toNat ≠ 0x81
        · rw [if_pos htype] at hq
          rw [if_pos htype, hq, if_pos rfl]
        · rw [if_neg htype] at hq
          rw [if_neg htype]
          by_cases hlf : partLFirst disk 0 p.toNat = 0
          · rw [if_pos hlf, hq, hlf, if_pos rfl]
          · rw [if_neg hlf, hq, if_neg hlf]
            by_cases hs : s = -1
            · rw [if_pos hs, if_pos hs]
            · rw [if_neg hs, if_neg hs]
              have hq2 := get_partition_start_eq disk s
                (partLFirst disk 0 p.toNat * 512 + 446)
              rw [Nat.add_sub_cancel] at hq2
              by_cases hsig2 : disk (partLFirst disk 0 p.toNat * 512 + 510) = 0x55 ∧
                  disk (partLFirst disk 0 p.toNat * 512 + 511) = 0xAA
              · rw [if_neg (not_not_intro hsig2)] at hq2
                rw [if_neg (not_not_intro hsig2)]
                by_cases hrange2 : s < 0 ∨ 4 ≤ s
                · rw [if_pos hrange2] at hq2
                  rw [if_pos hrange2, hq2, if_pos rfl]
                · rw [if_neg hrange2] at hq2
                  rw [if_neg hrange2]
                  by_cases htype2 : partType disk (partLFirst disk 0 p.toNat * 512)
                      s.toNat ≠ 0x81
                  · rw [if_pos htype2] at hq2
                    rw [if_pos htype2, hq2, if_pos rfl]
                  · rw [if_neg htype2] at hq2
                    rw [if_neg htype2]
                    by_cases hlf2 : partLFirst disk (partLFirst disk 0 p.toNat * 512)
                        s.toNat = 0
                    · rw [if_pos hlf2, hq2, hlf2, if_pos rfl]
                    · rw [if_neg hlf2, hq2, if_neg hlf2]
              · rw [if_pos hsig2] at hq2
                rw [if_pos hsig2, hq2, if_pos rfl]
    · rw [if_pos hsig] at hq
      rw [if_pos hsig, hq, if_pos rfl]

/-- A disk whose MBR signature is valid and whose partition entry 2 has
MINIX type `0x81` but `lFirst = 0`; used to witness claim C10. -/
def lfirstZeroDisk2 : Nat → Nat := fun i =>
  if i = 482 then 0x81 else if i = 510 then 0x55 else if i = 511 then 0xAA else 0

/-- Claim C10. For every image containing a partition entry that passes all
validations (MBR signature `0x55AA`, partition number in {0,1,2,3}, type
`0x81`) but whose `lFirst` field equals 0, filesystem initialization with
that partition selected fails (`locate_fs_offset` returns `none`, making
`init_filesystem` return -1) instead of proceeding with a filesystem base
offset of 0, because `get_partition_start` signals every failure by
returning sector 0. -/
theorem C10_lfirst_zero_init_fails (disk : Nat → Nat) (p s : Int)
    (hp0 : 0 ≤ p) (hp4 : p < 4)
    (hsig : disk (0 + 510) = 0x55 ∧ disk (0 + 511) = 0xAA)
    (htype : partType disk 0 p.toNat = 0x81)
    (hlf : partLFirst disk 0 p.toNat = 0) :
    locate_fs_offset disk p s = none := by
  have hq := get_partition_start_eq disk p 446
  simp only [Nat.sub_self] at hq
  rw [if_neg (not_not_intro hsig), if_neg (by omega),
      if_neg (not_not_intro htype), hlf] at hq
  simp only [locate_fs_offset, PARTITION_TABLE_OFFSET, SECTOR_SIZE]
  rw [if_neg (by omega : ¬ p = -1), hq, if_pos rfl]

/-- Witness for C10: on `lfirstZeroDisk2`, selecting primary partition 2
(no sub-partition) makes initialization fail. -/
theorem C10_witness : locate_fs_offset lfirstZeroDisk2 2 (-1) = none :=
  C10_lfirst_zero_init_fails lfirstZeroDisk2 2 (-1) (by decide) (by decide)
    (by decide) (by decide) (by decide)




/-- The superblock fields `read_inode` consults (`minix_superblk_t`,
`fs_util.h`).  The `int16` bitmap block counts `i_blks`/`z_blks` are
modelled as naturals (they are non-negative in any valid filesystem). -/
structure MinixSuperblk where
  ninodes : Nat
  i_blks : Nat
  z_blks : Nat
  blksize : Nat
  deriving DecidableEq

/--
Function `read_inode` (`fs_util.c:194-211`): reject inode number 0 and numbers
above `ninodes`; otherwise read `INODE_SIZE` bytes at offset
`(2 + i_blks + z_blks) * blksize + (inode_num - 1) * INODE_SIZE` from the
filesystem start.  `readBytes off len` is the oracle for `read_fs_bytes`;
the result is the inode record's raw bytes. -/
def read_inode (sb : MinixSuperblk) (readBytes : Nat → Nat → Option (List Nat))
    (inode_num : Nat) : Option (List Nat) :=
  if inode_num = 0 ∨ sb.ninodes < inode_num then none
  else
    let inode_start_blk := 2 + sb.i_blks + sb.z_blks
    let i := inode_num - 1
    readBytes (inode_start_blk * sb.blksize + i * INODE_SIZE) INODE_SIZE

/-- Claim C4. When reads succeed (every `readBytes off len` returns `len`
bytes), `read_inode n` for `1 ≤ n ≤ ninodes` succeeds and returns the
64-byte record located at byte offset
`(2 + i_blocks + z_blocks) * blocksize + (n - 1) * 64` from the
filesystem start; `read_inode 0` fails, and `read_inode m` fails for
every `m > ninodes`. -/
theorem C4_read_inode_range (sb : MinixSuperblk)
    (readBytes : Nat → Nat → Option (List Nat))
    (hrb : ∀ off len, ∃ bs, readBytes off len = some bs ∧ bs.length = len)
    (n : Nat) :
    (1 ≤ n → n ≤ sb.ninodes →
      read_inode sb readBytes n =
        readBytes ((2 + sb.i_blks + sb.z_blks) * sb.blksize + (n - 1) * 64) 64 ∧
      ∃ bs, read_inode sb readBytes n = some bs ∧ bs.length = 64) ∧
    read_inode sb readBytes 0 = none ∧
    (∀ m, sb.ninodes < m → read_inode sb readBytes m = none) := by
  refine ⟨?_, ?_, ?_⟩
  · intro h1 h2
    have hcond : ¬ (n = 0 ∨ sb.ninodes < n) := by omega
    constructor
    · simp only [read_inode, INODE_SIZE]
      rw [if_neg hcond]
    · obtain ⟨bs, hbs, hlen⟩ :=
        hrb ((2 + sb.i_blks + sb.z_blks) * sb.blksize + (n - 1) * 64) 64
      refine ⟨bs, ?_, hlen⟩
      simp only [read_inode, INODE_SIZE]
      rw [if_neg hcond]
      exact hbs
  · simp [read_inode]
  · intro m hm
    simp only [read_inode]
    rw [if_pos (Or.inr hm)]

/-- Witness for C4: a 16-inode superblock with 1 + 1 bitmap blocks and
blocksize 1024; inode 3 reads 64 bytes at offset `4 * 1024 + 2 * 64`,
inode 0 and inode 17 fail. -/
theorem C4_witness :
    read_inode ⟨16, 1, 1, 1024⟩ (fun _ len => some (List.replicate len 7)) 3 =
      (fun (_ : Nat) len => some (List.replicate len 7))
        ((2 + 1 + 1) * 1024 + (3 - 1) * 64) 64 ∧
    read_inode ⟨16, 1, 1, 1024⟩ (fun _ len => some (List.replicate len 7)) 0 = none ∧
    read_inode ⟨16, 1, 1, 1024⟩ (fun _ len => some (List.replicate len 7)) 17 = none := by
  have h := C4_read_inode_range ⟨16, 1, 1, 1024⟩
    (fun _ len => some (List.replicate len 7))
    (fun _ len => ⟨List.replicate len 7, rfl, List.length_replicate len 7⟩) 3
  exact ⟨(h.1 (by decide) (by decide)).1, h.2.1, h.2.2 17 (by decide)⟩

/--
Predicate `strncmp(a, b, n) == 0` (the only fact `get_inode_by_path` uses about
`strncmp`), for byte strings with the C convention that positions past
the end of the list read as the NUL terminator (byte 0): compare up to
`n` bytes, returning unequal at the first differing byte and equal at a
common NUL or after `n` equal bytes. -/
def strncmp_is_eq : List Nat → List Nat → Nat → Bool
  | _, _, 0 => true
  | a, b, n + 1 =>
    if a.headD 0 = b.headD 0 then
      if a.headD 0 = 0 then true else strncmp_is_eq a.tail b.tail n
    else false

/--
The directory-entry name match of `get_inode_by_path`
(`fs_util.c:420-431`): a component `token` matches the 60-byte `name`
field iff `token_len ≤ 60`, `strncmp(token, name, token_len) == 0`, and
(`token_len = 60` or `name[token_len] = 0`). -/
def entry_matches (token : List Char) (name : List Nat) : Bool :=
  if 60 < token.length then false
  else if strncmp_is_eq (token.map Char.toNat) name token.length = false then false
  else if token.length < 60 ∧ name.getD token.length 0 ≠ 0 then false
  else true

/-- The entry's name as the specification (§3) words it: the byte
sequence up to the first NUL within the 60-byte field, or all 60 bytes
if none. -/
def entryNameOf (name : List Nat) : List Nat :=
  (name.take 60).takeWhile (fun b => b != 0)

/-- Helper: for a token whose bytes are all nonzero,
`strncmp(token, name, token_len) == 0` says exactly that the first
`token_len` bytes of `name` are the token. -/
theorem strncmp_is_eq_iff_take (tb : List Nat) :
    ∀ nm : List Nat, (∀ x ∈ tb, x ≠ 0) →
      (strncmp_is_eq tb nm tb.length = true ↔ nm.take tb.length = tb) := by
  induction tb with
  | nil => intro nm _; simp [strncmp_is_eq]
  | cons x xs ih =>
    intro nm hnz
    have hx : x ≠ 0 := hnz x (List.mem_cons_self x xs)
    have hxs : ∀ y ∈ xs, y ≠ 0 := fun y hy => hnz y (List.mem_cons_of_mem x hy)
    cases nm with
    | nil =>
      simp only [List.length_cons, strncmp_is_eq, List.headD_nil, List.headD_cons,
        List.take_nil]
      rw [if_neg hx]
      simp [hx]
    | cons y ys =>
      simp only [List.length_cons, strncmp_is_eq, List.headD_cons, List.tail_cons,
        List.take_succ_cons]
      by_cases hxy : x = y
      · rw [if_pos hxy, if_neg hx]
        rw [ih ys hxs]
        constructor
        · intro h; rw [h, hxy]
        · intro h
          have := List.cons.injEq y (ys.take xs.length) x xs
          rw [this] at h
          exact h.2
      · rw [if_neg hxy]
        constructor
        · intro h; exact absurd h (by simp)
        · intro h
          have := List.cons.injEq y (ys.take xs.length) x xs
          rw [this] at h
          exact absurd h.1.symm hxy

/-- Helper: for a token whose bytes are all nonzero, being the
NUL-delimited name means being the `token_len`-byte prefix with the name
either ending there or having a NUL right after. -/
theorem takeWhile_eq_iff_take (tb : List Nat) :
    ∀ nm : List Nat, (∀ x ∈ tb, x ≠ 0) →
      (nm.takeWhile (fun b => b != 0) = tb ↔
        nm.take tb.length = tb ∧
          (nm.length ≤ tb.length ∨ nm.getD tb.length 0 = 0)) := by
  induction tb with
  | nil =>
    intro nm _
    cases nm with
    | nil => simp [List.takeWhile]
    | cons y ys =>
      rw [List.takeWhile_cons]
      simp only [List.length_nil, List.take_zero, List.length_cons,
        List.getD_cons_zero, true_and]
      by_cases hy : y = 0
      · subst hy; simp
      · have hyb : (y != 0) = true := by simpa using hy
        rw [hyb, if_pos rfl]
        constructor
        · intro h; exact absurd h (by simp)
        · rintro (h | h)
          · omega
          · exact absurd h hy
  | cons x xs ih =>
    intro nm hnz
    have hx : x ≠ 0 := hnz x (List.mem_cons_self x xs)
    have hxs : ∀ y ∈ xs, y ≠ 0 := fun y hy => hnz y (List.mem_cons_of_mem x hy)
    cases nm with
    | nil => simp [List.takeWhile]
    | cons y ys =>
      rw [List.takeWhile_cons]
      simp only [List.length_cons, List.take_succ_cons, List.getD_cons_succ]
      by_cases hy : y = 0
      · subst hy
        rw [if_neg (by simp)]
        constructor
        · intro h; exact absurd h (by simp)
        · rintro ⟨h, _⟩
          have := List.cons.injEq 0 (ys.take xs.length) x xs
          rw [this] at h
          exact absurd h.1.symm hx
      · have hyb : (y != 0) = true := by simpa using hy
        rw [hyb, if_pos rfl]
        simp only [List.cons.injEq, Nat.add_le_add_iff_right]
        rw [ih ys hxs]
        tauto

/-- Claim C5. For every path-component query `token` (whose bytes, being
path-component characters, are nonzero) and every 60-byte directory-entry
name field, the resolver's match succeeds iff the token equals, byte for
byte and in length, the entry's name — the byte sequence up to the first
NUL within the 60 bytes, or all 60 bytes if none.  In particular a query
that is a strict prefix of an entry name does not match. -/
theorem C5_entry_match_exact (token : List Char) (name : List Nat)
    (hname : name.length = 60) (htok : ∀ c ∈ token, c.toNat ≠ 0) :
    entry_matches token name = true ↔ token.map Char.toNat = entryNameOf name := by
  have htb : ∀ x ∈ token.map Char.toNat, x ≠ 0 := by
    intro x hxmem
    obtain ⟨c, hc, rfl⟩ := List.mem_map.mp hxmem
    exact htok c hc
  have hmaplen : (token.map Char.toNat).length = token.length := List.length_map _ _
  have hent : entryNameOf name = name.takeWhile (fun b => b != 0) := by
    unfold entryNameOf
    rw [List.take_of_length_le (le_of_eq hname)]
  rw [hent]
  unfold entry_matches
  by_cases hlen : 60 < token.length
  · rw [if_pos hlen]
    have hshort : (name.takeWhile (fun b => b != 0)).length ≤ 60 := by
      calc (name.takeWhile (fun b => b != 0)).length ≤ name.length :=
            (List.takeWhile_sublist _).length_le
        _ = 60 := hname
    constructor
    · intro h; exact absurd h (by simp)
    · intro h
      exfalso
      rw [← h, hmaplen] at hshort
      omega
  · rw [if_neg hlen]
    push_neg at hlen
    by_cases hcmp : strncmp_is_eq (token.map Char.toNat) name token.length = true
    · rw [if_neg (by simp [hcmp])]
      have htake : name.take token.length = token.map Char.toNat := by
        rw [← hmaplen] at hcmp ⊢
        exact (strncmp_is_eq_iff_take _ name htb).mp hcmp
      conv_rhs => rw [eq_comm]
      rw [takeWhile_eq_iff_take _ name htb, hmaplen, hname]
      by_cases hterm : token.length < 60 ∧ name.getD token.length 0 ≠ 0
      · rw [if_pos hterm]
        constructor
        · intro h; exact absurd h (by simp)
        · rintro ⟨-, h60 | h0⟩
          · omega
          · exact absurd h0 hterm.2
      · rw [if_neg hterm]
        push_neg at hterm
        constructor
        · intro _
          refine ⟨htake, ?_⟩
          by_cases h60 : token.length < 60
          · exact Or.inr (hterm h60)
          · exact Or.inl (by omega)
        · intro _; rfl
    · rw [if_pos (by simpa using hcmp)]
      constructor
      · intro h; exact absurd h (by simp)
      · intro h
        exfalso
        apply hcmp
        rw [← hmaplen]
        refine (strncmp_is_eq_iff_take _ name htb).mpr ?_
        replace h := h.symm
        rw [takeWhile_eq_iff_take _ name htb] at h
        rw [hmaplen] at h ⊢
        exact h.1

/-- Witness for C5: the query `a` against an entry named `ab` (bytes
`[97, 98]` then NULs) — the iff, instantiated, shows the strict prefix
does not match. -/
theorem C5_witness :
    (entry_matches ['a'] ([97, 98] ++ List.replicate 58 0) = true ↔
      ['a'].map Char.toNat = entryNameOf ([97, 98] ++ List.replicate 58 0)) ∧
    entry_matches ['a'] ([97, 98] ++ List.replicate 58 0) = false := by
  constructor
  · exact C5_entry_match_exact ['a'] ([97, 98] ++ List.replicate 58 0)
      (by decide) (by decide)
  · decide

/--
The `strtok_r(…, "/", …)` tokenization used by `canonicalize_path`
(`fs_util.c:338-348`) and by `get_inode_by_path` (`fs_util.c:387-465`):
the maximal nonempty runs of non-slash characters, in order.  `acc` is
the run currently being accumulated. -/
def pcAux : List Char → List Char → List (List Char)
  | [], acc => if acc = [] then [] else [acc]
  | c :: rest, acc =>
    if c = '/' then
      if acc = [] then pcAux rest [] else acc :: pcAux rest []
    else pcAux rest (acc ++ [c])

/-- The `/`-separated components of a path string. -/
def pathComponents (s : List Char) : List (List Char) := pcAux s []

/--
Function `canonicalize_path` (`fs_util.c:312-364`): write one leading `/`, then
the `strtok_r` components joined by single slashes; empty input becomes
`/`.  (The trailing-slash strip at `fs_util.c:358-361` is unreachable:
the rebuilt string places a `/` only between two components, so it never
ends in `/` unless it is exactly `/`.) -/
def canonicalize_path (p : List Char) : List Char :=
  '/' :: List.intercalate ['/'] (pathComponents p)

/-- Helper: the tokenizer consumes a slash-free chunk into the
accumulator. -/
theorem pcAux_append (comp : List Char) :
    ∀ (rest acc : List Char), '/' ∉ comp →
      pcAux (comp ++ rest) acc = pcAux rest (acc ++ comp) := by
  induction comp with
  | nil => intro rest acc _; simp
  | cons c cs ih =>
    intro rest acc hns
    have hc : ¬ c = '/' := fun h => hns (h ▸ List.mem_cons_self c cs)
    have hcs : '/' ∉ cs := fun h => hns (List.mem_cons_of_mem c h)
    simp only [List.cons_append, pcAux, if_neg hc]
    rw [show acc ++ c :: cs = (acc ++ [c]) ++ cs by simp]
    exact ih rest (acc ++ [c]) hcs

/-- Helper: every component the tokenizer produces is nonempty and
slash-free. -/
theorem pcAux_members : ∀ (s acc : List Char), '/' ∉ acc →
    ∀ c ∈ pcAux s acc, c ≠ [] ∧ '/' ∉ c := by
  intro s
  induction s with
  | nil =>
    intro acc hacc c hc
    simp only [pcAux] at hc
    by_cases h : acc = []
    · rw [if_pos h] at hc; exact absurd hc (by simp)
    · rw [if_neg h] at hc
      rcases List.mem_singleton.mp hc with rfl
      exact ⟨h, hacc⟩
  | cons x rest ih =>
    intro acc hacc c hc
    simp only [pcAux] at hc
    by_cases hx : x = '/'
    · rw [if_pos hx] at hc
      by_cases h : acc = []
      · rw [if_pos h] at hc
        exact ih [] (by simp) c hc
      · rw [if_neg h] at hc
        rcases List.mem_cons.mp hc with rfl | hmem
        · exact ⟨h, hacc⟩
        · exact ih [] (by simp) c hmem
    · rw [if_neg hx] at hc
      refine ih (acc ++ [x]) ?_ c hc
      intro hmem
      rcases List.mem_append.mp hmem with h | h
      · exact hacc h
      · exact hx (List.mem_singleton.mp h).symm

/-- Helper: re-tokenizing slash-joined nonempty slash-free components
recovers them. -/
theorem pcAux_intercalate : ∀ comps : List (List Char),
    (∀ c ∈ comps, c ≠ [] ∧ '/' ∉ c) →
      pcAux (List.intercalate ['/'] comps) [] = comps := by
  intro comps
  induction comps with
  | nil => intro _; simp [List.intercalate, pcAux]
  | cons c cs ih =>
    intro h
    have hc := h c (List.mem_cons_self c cs)
    cases cs with
    | nil =>
      have hone : List.intercalate ['/'] [c] = c := by
        simp [List.intercalate]
      have hstep := pcAux_append c [] [] hc.2
      rw [List.append_nil] at hstep
      rw [hone, hstep]
      simp only [pcAux, List.nil_append]
      rw [if_neg hc.1]
    | cons d t =>
      have htwo : List.intercalate ['/'] (c :: d :: t) =
          c ++ '/' :: List.intercalate ['/'] (d :: t) := by
        simp [List.intercalate, List.intersperse]
      rw [htwo, pcAux_append c _ [] hc.2]
      have hrec := ih (fun e he => h e (List.mem_cons_of_mem c he))
      simp only [List.nil_append, pcAux]
      simp [hc.1, hrec]

/-- Claim C6. Path canonicalization is idempotent — for every input string
`p`, `canon (canon p) = canon p` — and it maps the inputs `""`, `"/"`,
`"//"` and `"///a//b/"` to `"/"`, `"/"`, `"/"` and `"/a/b"`
respectively. -/
theorem C6_canonicalize_path_idempotent :
    (∀ p : List Char,
      canonicalize_path (canonicalize_path p) = canonicalize_path p) ∧
    canonicalize_path [] = ['/'] ∧
    canonicalize_path ['/'] = ['/'] ∧
    canonicalize_path ['/', '/'] = ['/'] ∧
    canonicalize_path ['/', '/', '/', 'a', '/', '/', 'b', '/'] =
      ['/', 'a', '/', 'b'] := by
  refine ⟨?_, by decide, by decide, by decide, by decide⟩
  intro p
  unfold canonicalize_path pathComponents
  have h1 : pcAux ('/' :: List.intercalate ['/'] (pcAux p [])) [] =
      pcAux (List.intercalate ['/'] (pcAux p [])) [] := by
    simp [pcAux]
  rw [h1, pcAux_intercalate _ (pcAux_members p [] (by simp))]

/-- The oracles and geometry `get_inode_by_path` and
`list_directory_contents` operate through.  `readTbl` backs
`get_file_blk` (indirect-table reads); `readBlk off` is
`read_fs_bytes(off, buf, blksize)` returning the `blksize` raw bytes of
a directory data block, or `none` on failure; `readInode` is
`read_inode`, returning the decoded inode or `none` on failure. -/
structure FsEnv where
  geom : FsGeom
  readTbl : Nat → Option (List Nat)
  readBlk : Nat → Option (List Nat)
  readInode : Nat → Option MinixInode

/-- The little-endian 32-bit inode number of directory-entry slot `j` of
a directory data block (`minix_dir_entry_t.inode`, `fs_util.h`). -/
def dirEntryInode (buf : List Nat) (j : Nat) : Nat :=
  buf.getD (DIR_ENTRY_SIZE * j) 0 + 256 * buf.getD (DIR_ENTRY_SIZE * j + 1) 0 +
  65536 * buf.getD (DIR_ENTRY_SIZE * j + 2) 0 +
  16777216 * buf.getD (DIR_ENTRY_SIZE * j + 3) 0

/-- The 60-byte name field of directory-entry slot `j`
(`minix_dir_entry_t.name`, `fs_util.h`). -/
def dirEntryName (buf : List Nat) (j : Nat) : List Nat :=
  (buf.drop (DIR_ENTRY_SIZE * j + 4)).take 60

/-- The inner entry loop of `get_inode_by_path` (`fs_util.c:414-436`):
scan slots `j` with `j * DIR_ENTRY_SIZE < blksize` in order, skipping
vacant entries (`inode == 0`); the first matching entry is returned (the
`goto found_component`); 0 when none matches.  The loop bound is embedded
as `j < (blksize + 63) / 64`, which holds iff `j * 64 < blksize`. -/
def find_entry_in_blk (blksize : Nat) (token : List Char) (buf : List Nat) : Nat :=
  match (List.range ((blksize + DIR_ENTRY_SIZE - 1) / DIR_ENTRY_SIZE)).find?
      (fun j => decide (dirEntryInode buf j ≠ 0) &&
                entry_matches token (dirEntryName buf j)) with
  | some j => dirEntryInode buf j
  | none => 0

/-- One directory data block of the component search
(`fs_util.c:405-412`): a hole (`get_file_blk = 0`) is skipped
(`continue`), a failed block read is skipped (`continue`), otherwise the
block is scanned.  0 means this block contributes no match. -/
def blkMatch (env : FsEnv) (dir : MinixInode) (token : List Char) (i : Nat) : Nat :=
  let disk_blk := get_file_blk env.geom env.readTbl dir i
  if disk_blk = 0 then 0
  else
    match env.readBlk (disk_blk * env.geom.blksize) with
    | none => 0
    | some buf => find_entry_in_blk env.geom.blksize token buf

/-- The outer block loop of the component search (`fs_util.c:404-437`):
blocks `i` with `i * blksize < dir.size` in order; the first block that
yields a match ends the scan.  The loop bound is embedded as
`i < (size + blksize - 1) / blksize`, equivalent for `blksize > 0`. -/
def scan_dir_blks (env : FsEnv) (dir : MinixInode) (token : List Char) : Nat :=
  match (List.range ((dir.size + env.geom.blksize - 1) / env.geom.blksize)).find?
      (fun i => decide (blkMatch env dir token i ≠ 0)) with
  | some i => blkMatch env dir token i
  | none => 0

/-- The observable outcome of `get_inode_by_path`, one constructor per
return path of the source: `ok n` is a returned nonzero inode number;
`notFound` is the `return 0` at CHECK 1 (`fs_util.c:442-444`, silent —
the caller prints the Cant-find diagnostic); `notADirectory p` is the
`return 0` at CHECK 2 after printing the diagnostic
`Not a directory: trying to traverse file:` followed by the full
canonical path `p` (`fs_util.c:453-459`); `ioError` is the `return 0` on
a failed `read_inode` (`fs_util.c:394` and `fs_util.c:449`). -/
inductive PathResult where
  | ok : Nat → PathResult
  | notFound : PathResult
  | notADirectory : List Char → PathResult
  | ioError : PathResult
  deriving DecidableEq

/-- The component loop of `get_inode_by_path` (`fs_util.c:390-466`).
`path` is the full canonical path, carried for the NotADirectory
diagnostic; the non-directory check fires only when more components
remain (the source tests `*next_token_start` against the terminator). -/
def walk (env : FsEnv) (path : List Char) : List (List Char) → Nat → PathResult
  | [], cur => .ok cur
  | token :: rest, cur =>
    match env.readInode cur with
    | none => .ioError
    | some dir_inode =>
      let target := scan_dir_blks env dir_inode token
      if target = 0 then .notFound
      else
        match env.readInode target with
        | none => .ioError
        | some tgt =>
          if rest ≠ [] ∧ tgt.mode &&& 0o170000 ≠ 0o040000 then
            .notADirectory path
          else walk env path rest target

/-- Function `get_inode_by_path` (`fs_util.c:370-469`): the root path maps to
inode 1 immediately; otherwise the leading slash is skipped and the
components are resolved one by one starting from inode 1. -/
def get_inode_by_path (env : FsEnv) (canonical_path : List Char) : PathResult :=
  if canonical_path = ['/'] then .ok 1
  else walk env canonical_path (pathComponents (canonical_path.drop 1)) 1

/-- Quantity `entries_per_block = current_sb.blocksize / DIR_ENTRY_SIZE`
(`minls.c:96`), the list-mode slot count per directory block. -/
def entries_per_block (blksize : Nat) : Nat := blksize / DIR_ENTRY_SIZE

/-- The resolve-mode slot condition `j * DIR_ENTRY_SIZE < blksize`
(`fs_util.c:414`). -/
def resolve_slot_cond (blksize j : Nat) : Prop := j * DIR_ENTRY_SIZE < blksize

/-- The displayed name of a directory entry in `list_directory_contents`
(`minls.c:107-109`): the 60 name bytes copied into a NUL-terminated
buffer, i.e. the bytes up to the first NUL. -/
def entryDisplayName (buf : List Nat) (j : Nat) : List Nat :=
  (dirEntryName buf j).takeWhile (fun b => b != 0)

/-- One directory data block of `list_directory_contents`
(`minls.c:80-113`): holes are skipped; a failed block read prints a
diagnostic and is skipped (`continue`, `minls.c:88-93`); otherwise each
of the `entries_per_block` slots with a nonzero inode number yields the
pair (inode number, displayed name). -/
def listBlkEntries (env : FsEnv) (dir : MinixInode) (i : Nat) :
    List (Nat × List Nat) :=
  let disk_blk := get_file_blk env.geom env.readTbl dir i
  if disk_blk = 0 then []
  else
    match env.readBlk (disk_blk * env.geom.blksize) with
    | none => []
    | some buf =>
      (List.range (entries_per_block env.geom.blksize)).filterMap (fun j =>
        if dirEntryInode buf j = 0 then none
        else some (dirEntryInode buf j, entryDisplayName buf j))

/-- Function `list_directory_contents` (`minls.c:63-116`): fails (-1) when the
directory inode cannot be read or is not a directory; otherwise returns
the listed `(inode, name)` pairs in on-disk order and succeeds (returns
0) whatever the data-block reads do. -/
def list_directory_contents (env : FsEnv) (dir_inode_num : Nat) :
    Option (List (Nat × List Nat)) :=
  match env.readInode dir_inode_num with
  | none => none
  | some dir =>
    if dir.mode &&& 0o170000 ≠ 0o040000 then none
    else
      some (((List.range ((dir.size + env.geom.blksize - 1) / env.geom.blksize)).map
        (listBlkEntries env dir)).flatten)

/-- Claim C7. For every filesystem in which the component `a` of path
`/a/b` resolves (from the root inode 1) to an inode whose file-type bits
are regular-file (`0o100000`, not a directory), resolving `/a/b` fails
with NotADirectory — not NotFound — and the diagnostic carries the full
path `/a/b`. -/
theorem C7_traverse_regular_file (env : FsEnv) (root a_inode : MinixInode)
    (na : Nat)
    (hroot : env.readInode 1 = some root)
    (hfind : scan_dir_blks env root ['a'] = na)
    (hna : na ≠ 0)
    (hai : env.readInode na = some a_inode)
    (hreg : a_inode.mode &&& 0o170000 = 0o100000) :
    get_inode_by_path env ['/', 'a', '/', 'b'] =
      PathResult.notADirectory ['/', 'a', '/', 'b'] := by
  have hcomp : pathComponents (['/', 'a', '/', 'b'].drop 1) = [['a'], ['b']] := by
    decide
  unfold get_inode_by_path
  rw [if_neg (by decide), hcomp]
  simp only [walk, hroot, hfind]
  rw [if_neg hna]
  simp only [hai]
  rw [if_pos ⟨by simp, by rw [hreg]; decide⟩]

/-- Concrete geometry, root directory, and regular file used to witness
C7: one 64-byte root block holding the single entry `a` for inode 2. -/
def c7env : FsEnv :=
  ⟨⟨0, 64⟩, fun _ => none,
   fun off => if off = 64 then some ([2, 0, 0, 0, 97] ++ List.replicate 59 0)
              else none,
   fun n => if n = 1 then some ⟨0o040755, 64, [1, 0, 0, 0, 0, 0, 0], 0, 0⟩
            else if n = 2 then some ⟨0o100644, 5, [3, 0, 0, 0, 0, 0, 0], 0, 0⟩
            else none⟩

/-- Witness for C7 on the concrete filesystem `c7env`. -/
theorem C7_witness :
    get_inode_by_path c7env ['/', 'a', '/', 'b'] =
      PathResult.notADirectory ['/', 'a', '/', 'b'] :=
  C7_traverse_regular_file c7env ⟨0o040755, 64, [1, 0, 0, 0, 0, 0, 0], 0, 0⟩
    ⟨0o100644, 5, [3, 0, 0, 0, 0, 0, 0], 0, 0⟩ 2
    (by decide) (by decide) (by decide) (by decide) (by decide)

/-- Concrete filesystem used for C8: the root directory spans two
blocks; reading the first data block (zone 5, byte offset 320) fails,
the second (zone 6, byte offset 384) holds the entry `a` for inode 2. -/
def c8env : FsEnv :=
  ⟨⟨0, 64⟩, fun _ => none,
   fun off => if off = 384 then some ([2, 0, 0, 0, 97] ++ List.replicate 59 0)
              else none,
   fun n => if n = 1 then some ⟨0o040755, 128, [5, 6, 0, 0, 0, 0, 0], 0, 0⟩
            else if n = 2 then some ⟨0o100644, 5, [9, 0, 0, 0, 0, 0, 0], 0, 0⟩
            else none⟩

/-- The root directory inode of `c8env`. -/
def c8root : MinixInode := ⟨0o040755, 128, [5, 6, 0, 0, 0, 0, 0], 0, 0⟩

/-- Claim C8, counterexample. The claim says a failed read of a non-hole
directory data block aborts the operation with an error.  On `c8env` the
read of the root directory's first data block (a non-hole block, disk
block 5) fails, yet path resolution of `/a` still succeeds with inode 2
(the block was skipped and the scan continued with the next block), and
directory listing still succeeds, returning the entry from the second
block.  Neither walk aborts. -/
theorem C8_counterexample :
    c8env.readBlk (get_file_blk c8env.geom c8env.readTbl c8root 0 *
      c8env.geom.blksize) = none ∧
    get_file_blk c8env.geom c8env.readTbl c8root 0 ≠ 0 ∧
    get_inode_by_path c8env ['/', 'a'] = PathResult.ok 2 ∧
    list_directory_contents c8env 1 = some [(2, [97])] := by
  refine ⟨by decide, by decide, by decide, by decide⟩

/-- Claim C8, amended. A failed read of a (non-hole) directory data block
is skipped like a hole, in both walks: the block contributes no match to
path resolution and no entries to the listing, the scan continuing with
the remaining blocks; and directory listing reports success whenever the
directory inode itself is readable and is a directory, whatever the
data-block reads do.  (In list mode a diagnostic is printed for the
failed block, but the operation still returns success.) -/
theorem C8_failed_block_read_skipped (env : FsEnv) (dir : MinixInode)
    (token : List Char) (i : Nat)
    (hfail : env.readBlk (get_file_blk env.geom env.readTbl dir i *
      env.geom.blksize) = none) :
    blkMatch env dir token i = 0 ∧
    listBlkEntries env dir i = [] ∧
    (∀ dirnum d, env.readInode dirnum = some d →
      d.mode &&& 0o170000 = 0o040000 →
      ∃ entries, list_directory_contents env dirnum = some entries) := by
  refine ⟨?_, ?_, ?_⟩
  · unfold blkMatch
    by_cases h : get_file_blk env.geom env.readTbl dir i = 0
    · rw [if_pos h]
    · rw [if_neg h, hfail]
  · unfold listBlkEntries
    by_cases h : get_file_blk env.geom env.readTbl dir i = 0
    · rw [if_pos h]
    · rw [if_neg h, hfail]
  · intro dirnum d hd hdir
    refine ⟨((List.range ((d.size + env.geom.blksize - 1) / env.geom.blksize)).map
      (listBlkEntries env d)).flatten, ?_⟩
    simp only [list_directory_contents, hd]
    rw [if_neg (not_not_intro hdir)]

/-- Witness for the amended C8 on `c8env`: block 0 of the root directory
is skipped, and the listing still succeeds. -/
theorem C8_witness :
    blkMatch c8env c8root ['a'] 0 = 0 ∧
    listBlkEntries c8env c8root 0 = [] ∧
    (∃ entries, list_directory_contents c8env 1 = some entries) := by
  have h := C8_failed_block_read_skipped c8env c8root ['a'] 0 (by decide)
  exact ⟨h.1, h.2.1, h.2.2 1 c8root (by decide) (by decide)⟩

/-- Claim C9. For every blocksize that is a positive multiple of 64 and
every slot index `j`, the list-mode loop bound `j < blocksize / 64`
(`entries_per_block`) holds exactly when the resolve-mode loop bound
`j * 64 < blocksize` (`resolve_slot_cond`) holds, so the two
directory-scan iteration forms visit the same set of 64-byte entry slots
per block. -/
theorem C9_loop_bounds_equivalent (blksize j : Nat) (hpos : 0 < blksize)
    (hmul : 64 ∣ blksize) :
    j < entries_per_block blksize ↔ resolve_slot_cond blksize j := by
  obtain ⟨k, rfl⟩ := hmul
  unfold entries_per_block resolve_slot_cond DIR_ENTRY_SIZE
  rw [Nat.mul_div_cancel_left k (by omega)]
  omega

/-- Witness for C9 at `blocksize = 1024`, `j = 3`: both loop bounds
hold. -/
theorem C9_witness : 3 < entries_per_block 1024 ∧ resolve_slot_cond 1024 3 :=
  ⟨by decide,
   (C9_loop_bounds_equivalent 1024 3 (by decide) ⟨16, rfl⟩).mp (by decide)⟩

end MinixFs
